import Mathlib

/-!
Shallow embedding of the vizzy repository (flash.py): procedural generation of
branching lightning-flash polylines.  Python floats are modelled as real
numbers; the process-wide random generator is modelled by explicit draw
streams (each randint(lo, hi) call consumes a natural-number seed s and
yields lo + s % (hi - lo + 1); each random.random() call consumes a real
draw).  Mutable objects are modelled by explicit state passing.
-/

namespace Vizzy

open scoped Classical

noncomputable section

/-- Python math.atan2(y, x): the angle of the point (x, y). -/
def atan2 (y x : ℝ) : ℝ :=
  if 0 < x then Real.arctan (y / x)
  else if x < 0 then
    if 0 ≤ y then Real.arctan (y / x) + Real.pi else Real.arctan (y / x) - Real.pi
  else
    if 0 < y then Real.pi / 2 else if y < 0 then -(Real.pi / 2) else 0

/-- random.randint(lo, hi) (inclusive bounds), drawn from the seed s:
the uniform representative lo + s % (hi - lo + 1). -/
def randint (s : ℕ) (lo hi : ℤ) : ℤ :=
  lo + ((s % (hi - lo + 1).toNat : ℕ) : ℤ)

/-- Python int(x) on a float: truncation toward zero. -/
def truncInt (x : ℝ) : ℤ := if 0 ≤ x then ⌊x⌋ else ⌈x⌉

/-- class Point: stores its coordinates in the tuple self._point = (x, y). -/
@[ext]
structure Point where
  _point : ℝ × ℝ

/-- Point(x, y), i.e. the constructor body self._point = (x, y). -/
def Point.ofXY (x y : ℝ) : Point := ⟨(x, y)⟩

/-- Python defaults Point(x=0.0, y=0.0). -/
instance : Inhabited Point := ⟨Point.ofXY 0 0⟩

/-- Getter property x: self._point[0]. -/
def Point.x (p : Point) : ℝ := p._point.1

/-- Getter property y: self._point[1]. -/
def Point.y (p : Point) : ℝ := p._point.2

/-- CPython tuples are immutable: item assignment tup[i] = v raises
TypeError for every index and value (tuple has no setitem slot). -/
def tupleSetItem (_t : ℝ × ℝ) (_i : ℕ) (_v : ℝ) : Except String (ℝ × ℝ) :=
  Except.error "TypeError: tuple object does not support item assignment"

/-- Setter property x: executes self._point[0] = value. -/
def Point.setX (p : Point) (v : ℝ) : Except String Point :=
  (tupleSetItem p._point 0 v).map fun t => ⟨t⟩

/-- Setter property y: executes self._point[1] = value. -/
def Point.setY (p : Point) (v : ℝ) : Except String Point :=
  (tupleSetItem p._point 1 v).map fun t => ⟨t⟩

/-- Point.translate(x, y): return Point(self.x + x, self.y + y). -/
def Point.translate (p : Point) (x y : ℝ) : Point :=
  Point.ofXY (p.x + x) (p.y + y)

/-- Point.within_limits(x, y):
self.x >= 0 and self.x <= x and self.y >= 0 and self.y <= y. -/
def Point.within_limits (p : Point) (x y : ℝ) : Prop :=
  0 ≤ p.x ∧ p.x ≤ x ∧ 0 ≤ p.y ∧ p.y ≤ y

/-- class Vector: the ordered pair (a, b) of Points.  The isinstance checks
of the Python constructor are enforced by Lean's types. -/
structure Vector where
  a : Point
  b : Point

instance : Inhabited Vector := ⟨⟨default, default⟩⟩

/-- Vector.ab: (b.x - a.x, b.y - a.y). -/
def Vector.ab (v : Vector) : ℝ × ℝ := (v.b.x - v.a.x, v.b.y - v.a.y)

/-- Vector.length: sqrt(ab[0]**2 + ab[1]**2). -/
def Vector.length (v : Vector) : ℝ := Real.sqrt (v.ab.1 ^ 2 + v.ab.2 ^ 2)

/-- Vector.normal_form: (a.x - b.x, a.y - b.y). -/
def Vector.normal_form (v : Vector) : ℝ × ℝ := (v.a.x - v.b.x, v.a.y - v.b.y)

/-- Vector.heading: (ab[0] / length, ab[1] / length). -/
def Vector.heading (v : Vector) : ℝ × ℝ := (v.ab.1 / v.length, v.ab.2 / v.length)

/-- Vector.phi: math.atan2(heading[0], heading[1]) (the source deliberately
passes the x component in the first slot). -/
def Vector.phi (v : Vector) : ℝ := atan2 v.heading.1 v.heading.2

/-- Vector.dot(v): planar dot product of the two ab components. -/
def Vector.dot (v w : Vector) : ℝ := v.ab.1 * w.ab.1 + v.ab.2 * w.ab.2

/-- Vector.from_polar(start, phi, length):
Vector(start, Point(start.x + length*cos(phi), start.y + length*sin(phi))). -/
def Vector.from_polar (start : Point) (phi length : ℝ) : Vector :=
  ⟨start, Point.ofXY (start.x + length * Real.cos phi) (start.y + length * Real.sin phi)⟩

/-- Point.within_perimeter(other, r): Vector(self, other).length < r. -/
def Point.within_perimeter (p other : Point) (r : ℝ) : Prop :=
  (Vector.mk p other).length < r

/-- numpy.dot on two pairs: u[0]*v[0] + u[1]*v[1]. -/
def dot2 (u v : ℝ × ℝ) : ℝ := u.1 * v.1 + u.2 * v.2

/-- The acos argument of angle_between:
dot(v1.normal_form, v2.normal_form) / dot(v1.length, v2.length)
(numpy.dot of two scalars is their product). -/
def angleCos (v1 v2 : Vector) : ℝ :=
  dot2 v1.normal_form v2.normal_form / (v1.length * v2.length)

/-- try: return math.acos(c) except ValueError: return math.pi.
math.acos raises ValueError exactly when its argument lies outside [-1, 1]. -/
def acosOrPi (c : ℝ) : ℝ :=
  if c < -1 ∨ 1 < c then Real.pi else Real.arccos c

/-- angle_between(v1, v2) (free function of the source). -/
def angle_between (v1 v2 : Vector) : ℝ := acosOrPi (angleCos v1 v2)

/-- class Flash.  The field endP is named end in the source (a Lean
keyword); alternateFlag is the attribute __alternate (initially 0). -/
structure Flash where
  width : ℝ
  height : ℝ
  start : Point
  endP : Point
  _nodes : List Point
  alternateFlag : ℕ

instance : Inhabited Flash :=
  ⟨⟨500, 500, default, default, [default], 0⟩⟩

/-- Flash.__init__(width=500, height=500, start=None, end=None):
start defaults to Point(width // 2, height), end to Point(width // 2, 0),
and the node list is seeded with start. -/
def Flash.init (width height : ℝ) (start endP : Option Point) : Flash :=
  let s := start.getD (Point.ofXY ((⌊width / 2⌋ : ℤ) : ℝ) height)
  let e := endP.getD (Point.ofXY ((⌊width / 2⌋ : ℤ) : ℝ) 0)
  ⟨width, height, s, e, [s], 0⟩

/-- Flash.points: the nodes that are Points.  The node list only ever holds
Points (it is annotated t.List[Point] and only Points are appended), so the
runtime isinstance filter is the identity here. -/
def Flash.points (f : Flash) : List Point := f._nodes

/-- Flash.current_node: self._nodes[-1:][0]. -/
def Flash.current_node (f : Flash) : Point := f._nodes.getLastD default

/-- Flash.random_node: self._nodes[random.randint(0, len(self._nodes) - 1)],
with the randint draw taken from the seed s. -/
def Flash.random_node (f : Flash) (s : ℕ) : Point :=
  f._nodes.getD (randint s 0 ((f._nodes.length : ℤ) - 1)).toNat default

/-- Flash.current_point(): self.points[-1:][0]. -/
def Flash.current_point (f : Flash) : Point := f.points.getLastD default

/-- Flash.random_point(x=10, y=10): a jitter of the current point,
Point(current.x + randint(1, x) - x // 2, current.y + randint(1, y) - y // 2),
with the two randint draws taken from the seeds sx and sy. -/
def Flash.random_point (f : Flash) (x y : ℕ) (sx sy : ℕ) : Point :=
  let current := f.current_point
  Point.ofXY (current.x + ((randint sx 1 (x : ℤ)) : ℝ) - ((x / 2 : ℕ) : ℝ))
    (current.y + ((randint sy 1 (y : ℤ)) : ℝ) - ((y / 2 : ℕ) : ℝ))

/-- Flash.alternate(a, b): toggle __alternate between 0 and 1, then return
a if it is now 0 else b.  Returns the chosen value and the updated flash. -/
def Flash.alternate (f : Flash) (a b : ℤ) : ℤ × Flash :=
  let flag : ℕ := if f.alternateFlag = 0 then 1 else 0
  ((if flag = 0 then a else b), { f with alternateFlag := flag })

/-- Flash.add_node(node=None): append node to the node list, drawing a
jitter point via random_point() (seeds sx, sy) when node is None. -/
def Flash.add_node (f : Flash) (node : Option Point) (sx sy : ℕ) : Flash :=
  let n := node.getD (f.random_point 10 10 sx sy)
  { f with _nodes := f._nodes ++ [n] }

/-- Flash.edges: [Vector(points[i], p) for i, p in enumerate(points[1:])]. -/
def Flash.edges (f : Flash) : List Vector :=
  List.zipWith Vector.mk f.points (f.points.drop 1)

/-- The random draws consumed by one candidate generation (one call of the
inner function next_node): jitter seeds jx, jy (used when fewer than two
points exist), the random.random() draw r, and the randint(-1, 1) seed fd. -/
structure CandDraw where
  jx : ℕ
  jy : ℕ
  r : ℝ
  fd : ℕ

/-- The random draws consumed by one random_walk call: the seed for the
default randint(1, 10) step length, a stream of candidate draws (one per
next_node call), and the jitter seeds of the safety-valve random_point(). -/
structure WalkDraws where
  lengthDraw : ℕ
  cand : ℕ → CandDraw
  fbx : ℕ
  fby : ℕ

/-- factor = self.alternate(0, random.randint(-1, 1)) if alternate
else random.randint(-1, 1); returns the factor and the updated flash. -/
def drawFactor (f : Flash) (alternate : Bool) (s : ℕ) : ℤ × Flash :=
  if alternate then f.alternate 0 (randint s (-1) 1) else (randint s (-1) 1, f)

/-- The inner function next_node(length) of random_walk.  With fewer than
two prior points it returns the jitter random_point(10, 10); otherwise it
takes the last two points a, b (a is unused in the source as well), blends
deflect = random()*(1 - mix) + data*mix, draws factor, and either lunges
toward end (factor == 0, squared length) or turns by
pi/2 - factor*deflect*pi/2.  Returns the candidate and the updated flash
(the alternate flag may have toggled). -/
def nextNode (f : Flash) (data mix : ℝ) (alternate : Bool) (length : ℝ)
    (c : CandDraw) : Point × Flash :=
  match f.points.reverse with
  | b :: _ :: _ =>
    let deflect := c.r * (1 - mix) + data * mix
    let fr := drawFactor f alternate c.fd
    let factor := fr.1
    let f' := fr.2
    if factor = 0 then
      let new_angle := Real.pi / 2 - (Vector.mk b f.endP).phi + (deflect - 0.5)
      let nv := Vector.from_polar b new_angle (length ^ 2)
      (b.translate nv.ab.1 nv.ab.2, f')
    else
      let new_angle := Real.pi / 2 - (factor : ℝ) * deflect * (Real.pi / 2)
      let nv := Vector.from_polar b new_angle length
      (b.translate nv.ab.1 nv.ab.2, f')
  | _ => (f.random_point 10 10 c.jx c.jy, f)

/-- The retry loop of random_walk: while the candidate is out of bounds,
regenerate it; after the counter reaches 0 the freshly generated candidate
is discarded and the safety valve random_point() is taken instead.  The
flash is threaded because next_node may toggle the alternate flag.  The
retry = 0 equation is unreachable from the entry value 10 (the Python loop
would run forever there). -/
def walkLoop (data mix : ℝ) (alternate : Bool) (length : ℝ) (d : WalkDraws) :
    ℕ → Flash → Point → ℕ → Flash × Point
  | retry, f, node, i =>
    if node.within_limits f.width f.height then (f, node)
    else
      match retry with
      | 0 => (f, node)
      | r + 1 =>
        let fn := nextNode f data mix alternate length (d.cand i)
        if r = 0 then (fn.2, fn.2.random_point 10 10 d.fbx d.fby)
        else walkLoop data mix alternate length d r fn.2 fn.1 (i + 1)

/-- length = length or random.randint(1, 10): Python falsiness treats both
None and 0.0 as unset, so each of them triggers a fresh randint(1, 10). -/
def effectiveLength (length : Option ℝ) (s : ℕ) : ℝ :=
  match length with
  | none => ((randint s 1 10 : ℤ) : ℝ)
  | some l => if l = 0 then ((randint s 1 10 : ℤ) : ℝ) else l

/-- Flash.random_walk(length=None, data=0.0, mix=0.0, alternate=False):
resolve the step length, generate a candidate, run the bounded retry loop
(initial counter 10), and append the accepted node. -/
def Flash.random_walk (f : Flash) (length : Option ℝ) (data mix : ℝ)
    (alternate : Bool) (d : WalkDraws) : Flash :=
  let L := effectiveLength length d.lengthDraw
  let fn := nextNode f data mix alternate L (d.cand 0)
  let res := walkLoop data mix alternate L d 10 fn.2 fn.1 1
  res.1.add_node (some res.2) 0 0

/-- The backflash offset distance of render_path at joint i:
thickness - (thickness / (i + 1)). -/
def backflashDistance (thickness : ℝ) (i : ℕ) : ℝ :=
  thickness - thickness / ((i : ℝ) + 1)

/-- The backflash list of render_path: for each edge index i with
i < len(points) - 2, assert edges[i].b == edges[i+1].a (None on assertion
failure), then append from_polar(v1.b, angle_between(v1, v2), distance). -/
def backflash (fl : Flash) (t : ℝ) : Option (List Vector) :=
  ((List.range fl.edges.length).filter (fun i => i < fl.points.length - 2)).mapM
    (fun i =>
      let v1 := fl.edges.getD i default
      let v2 := fl.edges.getD (i + 1) default
      if v1.b = v2.a then
        some (Vector.from_polar v1.b (angle_between v1 v2) (backflashDistance t i))
      else none)

/-- The free function random_point(max_x, max_y):
Point(int(random() * max_x), int(random() * max_y)), with the two
random() draws rx and ry. -/
def random_point (max_x max_y : ℝ) (rx ry : ℝ) : Point :=
  Point.ofXY ((truncInt (rx * max_x) : ℝ)) ((truncInt (ry * max_y) : ℝ))

/-- The random draws consumed by one iteration of the make_flash loop: the
randint(0, len - 1) seed of random_node, the two random() draws of the new
end point, and the walk draws of the random_walk call. -/
structure IterDraws where
  nodeIdx : ℕ
  ex : ℝ
  ey : ℝ
  walk : WalkDraws

/-- The loop state of make_flash: the list of flashes created so far and
the index of the active flash (the local variable flash). -/
structure MFState where
  flashes : List Flash
  active : ℕ

/-- Replace the i-th element by g applied to it (the effect of mutating the
object stored at index i). -/
def updateAt (l : List Flash) (i : ℕ) (g : Flash → Flash) : List Flash :=
  l.set i (g (l.getD i default))

/-- One iteration of the make_flash loop: if the active flash's tip is
within height / 20 of its own end, append a new Flash whose start is a
random node of the first flash and whose end is random_point(width,
height / 2), and make it active; then random_walk() on the active flash. -/
def mfStep (width height : ℝ) (d : IterDraws) (s : MFState) : MFState :=
  let fl := s.flashes.getD s.active default
  let s' :=
    if fl.current_point.within_perimeter fl.endP (height / 20) then
      let first := s.flashes.getD 0 default
      let nf := Flash.init width height (some (first.random_node d.nodeIdx))
        (some (random_point width (height / 2) d.ex d.ey))
      MFState.mk (s.flashes ++ [nf]) s.flashes.length
    else s
  MFState.mk
    (updateAt s'.flashes s'.active (fun f => f.random_walk none 0 0 false d.walk))
    s'.active

/-- n iterations of the make_flash loop starting from the single initial
Flash(width, height) (which is both the first and the active flash). -/
def mfIter (width height : ℝ) (draws : ℕ → IterDraws) : ℕ → MFState
  | 0 => MFState.mk [Flash.init width height none none] 0
  | n + 1 => mfStep width height (draws n) (mfIter width height draws n)

/-- make_flash(width, height, nodes, verbose): run the loop nodes times and
return the flash list.  verbose only controls a click.echo call. -/
def make_flash (width height : ℝ) (nodes : ℕ) (_verbose : Bool)
    (draws : ℕ → IterDraws) : List Flash :=
  (mfIter width height draws nodes).flashes

/-- Total number of nodes across a list of flashes. -/
def sumNodes (l : List Flash) : ℕ := (l.map (fun f => f._nodes.length)).sum

/-- The arguments and draws of one random_walk call, for iterating walks. -/
structure WalkStep where
  length : Option ℝ
  data : ℝ
  mix : ℝ
  alternate : Bool
  d : WalkDraws

/-- Grow a flash by a sequence of random_walk calls. -/
def growN (f : Flash) (l : List WalkStep) : Flash :=
  l.foldl (fun g s => g.random_walk s.length s.data s.mix s.alternate s.d) f

/-- A concrete 100 x 100 flash holding only its seed node (50, 100): the
state of Flash(width=100, height=100) right after construction. -/
def ceFlash : Flash :=
  ⟨100, 100, Point.ofXY 50 100, Point.ofXY 50 0, [Point.ofXY 50 100], 0⟩

/-- Concrete walk draws: every jitter randint(1, 10) seed is 9 (so every
jitter draw is 10), making every candidate and the safety-valve fallback
the out-of-bounds point (55, 105). -/
def ceDraws : WalkDraws := ⟨0, fun _ => ⟨9, 9, 0, 0⟩, 9, 9⟩

/-- A concrete make_flash loop state: one 100 x 100 flash whose single node
(50, 0) coincides with its end point, so the perimeter test fires. -/
def state0 : MFState :=
  ⟨[⟨100, 100, Point.ofXY 50 0, Point.ofXY 50 0, [Point.ofXY 50 0], 0⟩], 0⟩

/-- Concrete draws for one make_flash iteration. -/
def iterDraws0 : IterDraws := ⟨0, 0, 0, ⟨0, fun _ => ⟨0, 0, 0, 0⟩, 0, 0⟩⟩

/-- A concrete flash with two nodes, for exercising the two-point branch of
next_node: the last two points are (50, 100) and (40, 90). -/
def cand2Flash : Flash :=
  ⟨100, 100, Point.ofXY 50 100, Point.ofXY 50 0,
    [Point.ofXY 50 100, Point.ofXY 40 90], 0⟩

/-- A concrete flash with three nodes, hence two edges and one interior
joint. -/
def c2Flash : Flash :=
  ⟨100, 100, Point.ofXY 50 100, Point.ofXY 50 0,
    [Point.ofXY 50 100, Point.ofXY 40 90, Point.ofXY 45 80], 0⟩

end

/-! ## Helper lemmas -/

@[simp]
lemma Point.ofXY_inj (x y x' y' : ℝ) :
    Point.ofXY x y = Point.ofXY x' y' ↔ x = x' ∧ y = y' := by
  simp [Point.ofXY, Point.mk.injEq, Prod.mk.injEq]

@[simp]
lemma Point.x_ofXY (x y : ℝ) : (Point.ofXY x y).x = x := rfl

@[simp]
lemma Point.y_ofXY (x y : ℝ) : (Point.ofXY x y).y = y := rfl

/-! ## C3 -/

/-- C3: the claim says assigning p.x = v (resp. p.y = v) succeeds and
updates the coordinate.  In the code the coordinates live in the tuple
self._point, and tuple item assignment raises TypeError, so both setters
always fail; here both setters are evaluated at the claim's own inputs and
on all inputs, always producing the TypeError. -/
theorem c3_setters_always_raise :
    (∀ (p : Point) (v : ℝ),
      p.setX v = Except.error "TypeError: tuple object does not support item assignment" ∧
      p.setY v = Except.error "TypeError: tuple object does not support item assignment") ∧
    (Point.ofXY 1 2).setX 5 =
      Except.error "TypeError: tuple object does not support item assignment" :=
  ⟨fun _ _ => ⟨rfl, rfl⟩, rfl⟩

/-! ## C9 -/

/-- C9: for thickness t > 0, the backflash offset distance
t - t/(i+1) is 0 at the first joint, strictly increases with the joint
index, and always stays strictly below t. -/
theorem c9_backflash_distance (t : ℝ) (ht : 0 < t) :
    backflashDistance t 0 = 0 ∧
    (∀ i j : ℕ, i < j → backflashDistance t i < backflashDistance t j) ∧
    (∀ i : ℕ, backflashDistance t i < t) := by
  refine ⟨by simp [backflashDistance], ?_, ?_⟩
  · intro i j hij
    have h1 : (0 : ℝ) < (i : ℝ) + 1 := by positivity
    have h2 : ((i : ℝ) + 1) < ((j : ℝ) + 1) := by exact_mod_cast Nat.succ_lt_succ hij
    have := div_lt_div_of_pos_left ht h1 h2
    simp only [backflashDistance]
    linarith
  · intro i
    have h1 : (0 : ℝ) < t / ((i : ℝ) + 1) := by positivity
    simp only [backflashDistance]
    linarith

/-- Witness for C9 at thickness 2 and joints 0, 1 < 2, 3. -/
theorem c9_backflash_distance_witness :
    backflashDistance 2 0 = 0 ∧
    backflashDistance 2 1 < backflashDistance 2 2 ∧
    backflashDistance 2 3 < 2 :=
  ⟨(c9_backflash_distance 2 (by norm_num)).1,
   (c9_backflash_distance 2 (by norm_num)).2.1 1 2 (by norm_num),
   (c9_backflash_distance 2 (by norm_num)).2.2 3⟩

/-! ## C10 -/

/-- C10: random_walk treats an explicit length of 0 exactly like an unset
length (Python falsiness of the step `length = length or randint(1, 10)`),
drawing a fresh uniform integer step length in [1, 10] instead. -/
theorem c10_zero_length_redrawn :
    (∀ (f : Flash) (data mix : ℝ) (alt : Bool) (d : WalkDraws),
      f.random_walk (some 0) data mix alt d = f.random_walk none data mix alt d) ∧
    (∀ s : ℕ, effectiveLength (some 0) s = effectiveLength none s ∧
      effectiveLength (some 0) s = ((randint s 1 10 : ℤ) : ℝ) ∧
      1 ≤ effectiveLength (some 0) s ∧ effectiveLength (some 0) s ≤ 10) := by
  have heff : ∀ s : ℕ, effectiveLength (some 0) s = effectiveLength none s := by
    intro s; simp [effectiveLength]
  have hval : ∀ s : ℕ, effectiveLength (some 0) s = ((randint s 1 10 : ℤ) : ℝ) := by
    intro s; simp [effectiveLength]
  have hz : ∀ s : ℕ, (1 : ℤ) ≤ randint s 1 10 ∧ randint s 1 10 ≤ 10 := by
    intro s
    have h : (s % 10) < 10 := Nat.mod_lt _ (by norm_num)
    have h10 : ((10 : ℤ) - 1 + 1).toNat = 10 := by decide
    simp only [randint, h10]
    omega
  refine ⟨fun f data mix alt d => ?_, fun s => ⟨heff s, hval s, ?_, ?_⟩⟩
  · unfold Flash.random_walk
    rw [heff]
  · rw [hval]
    exact_mod_cast (hz s).1
  · rw [hval]
    exact_mod_cast (hz s).2

/-! ## C6 -/

lemma normal_form_sq (v : Vector) :
    dot2 v.normal_form v.normal_form = v.ab.1 ^ 2 + v.ab.2 ^ 2 := by
  simp only [dot2, Vector.normal_form, Vector.ab]
  ring

lemma length_sq (v : Vector) : v.length * v.length = v.ab.1 ^ 2 + v.ab.2 ^ 2 :=
  Real.mul_self_sqrt (by positivity)

/-- C6: angle_between returns 0 on two identical vectors and pi on two
antiparallel vectors (second displacement a negative positive multiple of
the first); the embedded try/except around math.acos returns pi whenever
the acos argument falls outside [-1, 1] instead of raising. -/
theorem c6_angle_between (v w : Vector) (l : ℝ) :
    (0 < v.length → angle_between v v = 0) ∧
    (0 < l → 0 < v.length →
      w.b.x - w.a.x = -(l * (v.b.x - v.a.x)) →
      w.b.y - w.a.y = -(l * (v.b.y - v.a.y)) →
      angle_between v w = Real.pi) ∧
    (∀ c : ℝ, c < -1 ∨ 1 < c → acosOrPi c = Real.pi) := by
  refine ⟨?_, ?_, ?_⟩
  · intro hv
    have hs : 0 < v.ab.1 ^ 2 + v.ab.2 ^ 2 := by
      have := Real.sqrt_pos.mp hv
      simpa [Vector.length] using this
    have hc : angleCos v v = 1 := by
      simp only [angleCos, normal_form_sq, length_sq]
      exact div_self hs.ne'
    simp [angle_between, hc, acosOrPi, Real.arccos_one]
  · intro hl hv hx hy
    have hs : 0 < v.ab.1 ^ 2 + v.ab.2 ^ 2 := by
      have := Real.sqrt_pos.mp hv
      simpa [Vector.length] using this
    have hwab : w.ab.1 = -(l * v.ab.1) ∧ w.ab.2 = -(l * v.ab.2) := by
      simp only [Vector.ab]
      exact ⟨hx, hy⟩
    have hwlen : w.length = l * v.length := by
      simp only [Vector.length, hwab.1, hwab.2]
      rw [show (-(l * v.ab.1)) ^ 2 + (-(l * v.ab.2)) ^ 2
            = l ^ 2 * (v.ab.1 ^ 2 + v.ab.2 ^ 2) by ring]
      rw [Real.sqrt_mul (by positivity), Real.sqrt_sq hl.le]
    have hdot : dot2 v.normal_form w.normal_form
        = -(l * (v.ab.1 ^ 2 + v.ab.2 ^ 2)) := by
      simp only [dot2, Vector.normal_form]
      have h1 : v.a.x - v.b.x = -v.ab.1 := by simp [Vector.ab]
      have h2 : v.a.y - v.b.y = -v.ab.2 := by simp [Vector.ab]
      have h3 : w.a.x - w.b.x = l * v.ab.1 := by
        have := hwab.1; simp only [Vector.ab] at this ⊢; linarith
      have h4 : w.a.y - w.b.y = l * v.ab.2 := by
        have := hwab.2; simp only [Vector.ab] at this ⊢; linarith
      rw [h1, h2, h3, h4]
      ring
    have hc : angleCos v w = -1 := by
      simp only [angleCos, hdot, hwlen]
      rw [show v.length * (l * v.length) = l * (v.length * v.length) by ring,
        length_sq]
      rw [neg_div]
      rw [div_self (by positivity)]
    simp [angle_between, hc, acosOrPi, Real.arccos_neg_one]
  · intro c hc
    simp [acosOrPi, hc]

/-- Witness for C6: the vector (0,0)->(3,0) against itself, against its
reversal, and the raw acos fallback at argument 2. -/
theorem c6_angle_between_witness :
    angle_between (Vector.mk (Point.ofXY 0 0) (Point.ofXY 3 0))
      (Vector.mk (Point.ofXY 0 0) (Point.ofXY 3 0)) = 0 ∧
    angle_between (Vector.mk (Point.ofXY 0 0) (Point.ofXY 3 0))
      (Vector.mk (Point.ofXY 3 0) (Point.ofXY 0 0)) = Real.pi ∧
    acosOrPi 2 = Real.pi := by
  have hv : 0 < (Vector.mk (Point.ofXY 0 0) (Point.ofXY 3 0)).length := by
    simp only [Vector.length, Vector.ab, Point.x_ofXY, Point.y_ofXY]
    rw [show ((3 : ℝ) - 0) ^ 2 + ((0 : ℝ) - 0) ^ 2 = 9 by norm_num]
    exact Real.sqrt_pos.mpr (by norm_num)
  refine ⟨(c6_angle_between _ (Vector.mk (Point.ofXY 3 0) (Point.ofXY 0 0)) 1).1 hv,
    (c6_angle_between _ _ 1).2.1 (by norm_num) hv (by norm_num) (by norm_num),
    (c6_angle_between (Vector.mk (Point.ofXY 0 0) (Point.ofXY 3 0))
      (Vector.mk (Point.ofXY 3 0) (Point.ofXY 0 0)) 1).2.2 2 (by norm_num)⟩

/-! ## C2 -/

lemma edges_length (f : Flash) :
    f.edges.length = min f.points.length (f.points.length - 1) := by
  simp [Flash.edges]

lemma edges_get (f : Flash) (i : ℕ) (h : i < f.edges.length) :
    f.edges.get ⟨i, h⟩ =
      Vector.mk (f.points.get ⟨i, by
        have := edges_length f; omega⟩)
        (f.points.get ⟨i + 1, by have := edges_length f; omega⟩) := by
  have h1 : i < f.points.length := by have := edges_length f; omega
  have h2 : i + 1 < f.points.length := by
    have := edges_length f
    rcases Nat.eq_zero_or_pos f.points.length with h0 | h0 <;> omega
  simp only [Flash.edges, List.get_eq_getElem] at *
  rw [List.getElem_zipWith]
  congr 1
  rw [List.getElem_drop]
  congr 1
  omega

lemma edges_adjacent (f : Flash) (i : ℕ) (h : i + 1 < f.edges.length) :
    (f.edges.get ⟨i, by omega⟩).b = (f.edges.get ⟨i + 1, h⟩).a := by
  rw [edges_get f i (by omega), edges_get f (i + 1) h]

lemma mapM_ne_none {α β : Type} (g : α → Option β) :
    ∀ l : List α, (∀ x ∈ l, g x ≠ none) → l.mapM g ≠ none := by
  intro l
  induction l with
  | nil => intro _; rw [List.mapM_nil]; simp
  | cons a t ih =>
    intro hmem
    rw [List.mapM_cons]
    cases hga : g a with
    | none => exact absurd hga (hmem a (by simp))
    | some b =>
      have ht := ih (fun x hx => hmem x (by simp [hx]))
      cases hmt : t.mapM g with
      | none => exact absurd hmt ht
      | some bs => simp [hga, hmt]

/-- C2: in every Flash the consecutive edges share their joint point
(edges[i].b = edges[i+1].a for every interior joint), and consequently the
joint-mismatch assertion while building the backflash outline never fires,
for every thickness. -/
theorem c2_joints_shared :
    (∀ (f : Flash) (i : ℕ) (h : i + 1 < f.edges.length),
      (f.edges.get ⟨i, by omega⟩).b = (f.edges.get ⟨i + 1, h⟩).a) ∧
    (∀ (f : Flash) (t : ℝ), backflash f t ≠ none) := by
  refine ⟨edges_adjacent, ?_⟩
  intro f t
  unfold backflash
  apply mapM_ne_none
  intro i hi
  rw [List.mem_filter] at hi
  obtain ⟨hirange, hilt⟩ := hi
  rw [List.mem_range] at hirange
  have hilt' : i < f.points.length - 2 := by simpa using hilt
  have h2 : i + 1 < f.edges.length := by
    have := edges_length f
    omega
  have hadj := edges_adjacent f i h2
  simp only [List.get_eq_getElem] at hadj
  rw [List.getD_eq_getElem f.edges default (by omega : i < f.edges.length),
    List.getD_eq_getElem f.edges default h2]
  rw [if_pos hadj]
  simp

/-- Witness for C2 on a concrete three-node flash: its single interior
joint is shared and its backflash construction succeeds at thickness 1. -/
theorem c2_joints_shared_witness :
    (c2Flash.edges.get ⟨0, by norm_num [c2Flash, Flash.edges, Flash.points]⟩).b =
      (c2Flash.edges.get ⟨1, by norm_num [c2Flash, Flash.edges, Flash.points]⟩).a ∧
    backflash c2Flash 1 ≠ none :=
  ⟨c2_joints_shared.1 c2Flash 0 (by norm_num [c2Flash, Flash.edges, Flash.points]),
   c2_joints_shared.2 c2Flash 1⟩

/-! ## C7 -/

lemma alternate_snd_fields (f : Flash) (a b : ℤ) :
    (f.alternate a b).2._nodes = f._nodes ∧ (f.alternate a b).2.width = f.width ∧
    (f.alternate a b).2.height = f.height ∧ (f.alternate a b).2.endP = f.endP := by
  simp [Flash.alternate]

lemma drawFactor_snd_fields (f : Flash) (alt : Bool) (s : ℕ) :
    (drawFactor f alt s).2._nodes = f._nodes ∧ (drawFactor f alt s).2.width = f.width ∧
    (drawFactor f alt s).2.height = f.height ∧ (drawFactor f alt s).2.endP = f.endP := by
  cases alt <;> simp [drawFactor, Flash.alternate]

lemma nextNode_snd_fields (f : Flash) (data mix : ℝ) (alt : Bool) (L : ℝ)
    (c : CandDraw) :
    (nextNode f data mix alt L c).2._nodes = f._nodes ∧
    (nextNode f data mix alt L c).2.width = f.width ∧
    (nextNode f data mix alt L c).2.height = f.height := by
  unfold nextNode
  rcases hr : f.points.reverse with _ | ⟨b, _ | ⟨a, rest⟩⟩ <;>
    simp only [hr] <;>
    [skip; skip; split_ifs] <;>
    simp [drawFactor_snd_fields]

lemma walkLoop_fst_fields (data mix : ℝ) (alt : Bool) (L : ℝ) (d : WalkDraws) :
    ∀ (retry : ℕ) (f : Flash) (node : Point) (i : ℕ),
      (walkLoop data mix alt L d retry f node i).1._nodes = f._nodes ∧
      (walkLoop data mix alt L d retry f node i).1.width = f.width ∧
      (walkLoop data mix alt L d retry f node i).1.height = f.height := by
  intro retry
  induction retry with
  | zero =>
    intro f node i
    rw [walkLoop]
    split_ifs <;> simp
  | succ r ih =>
    intro f node i
    rw [walkLoop]
    split_ifs with h1 h2
    · simp
    · simp [nextNode_snd_fields]
    · have hn := nextNode_snd_fields f data mix alt L (d.cand i)
      have hrec := ih (nextNode f data mix alt L (d.cand i)).2
        (nextNode f data mix alt L (d.cand i)).1 (i + 1)
      exact ⟨hrec.1.trans hn.1, hrec.2.1.trans hn.2.1, hrec.2.2.trans hn.2.2⟩

lemma random_walk_nodes (f : Flash) (len : Option ℝ) (data mix : ℝ)
    (alt : Bool) (d : WalkDraws) :
    (f.random_walk len data mix alt d)._nodes =
      f._nodes ++ [(walkLoop data mix alt (effectiveLength len d.lengthDraw) d 10
        (nextNode f data mix alt (effectiveLength len d.lengthDraw) (d.cand 0)).2
        (nextNode f data mix alt (effectiveLength len d.lengthDraw) (d.cand 0)).1 1).2] := by
  unfold Flash.random_walk Flash.add_node
  simp only [Option.getD_some]
  rw [(walkLoop_fst_fields data mix alt _ d 10 _ _ 1).1,
    (nextNode_snd_fields f data mix alt _ (d.cand 0)).1]

lemma random_walk_length (f : Flash) (len : Option ℝ) (data mix : ℝ)
    (alt : Bool) (d : WalkDraws) :
    (f.random_walk len data mix alt d)._nodes.length = f._nodes.length + 1 := by
  rw [random_walk_nodes]
  simp

lemma growN_length : ∀ (l : List WalkStep) (f : Flash),
    (growN f l)._nodes.length = f._nodes.length + l.length := by
  intro l
  induction l with
  | nil => intro f; simp [growN]
  | cons s t ih =>
    intro f
    simp only [growN, List.foldl_cons] at *
    rw [ih, random_walk_length]
    simp
    omega

lemma floor_hundred_half : (⌊(100 : ℝ) / 2⌋ : ℤ) = 50 := by
  norm_num

/-- C7: each random_walk call appends exactly one node, so a Flash grown
from its single seed node by N calls has N + 1 nodes; Flash(100, 100) has
default start (50, 100) and end (50, 0), and one call leaves 2 nodes. -/
theorem c7_walk_appends_one :
    (∀ (f : Flash) (len : Option ℝ) (data mix : ℝ) (alt : Bool) (d : WalkDraws),
      (f.random_walk len data mix alt d)._nodes.length = f._nodes.length + 1) ∧
    (∀ (w h : ℝ) (steps : List WalkStep),
      (growN (Flash.init w h none none) steps)._nodes.length = steps.length + 1) ∧
    (Flash.init 100 100 none none).start = Point.ofXY 50 100 ∧
    (Flash.init 100 100 none none).endP = Point.ofXY 50 0 ∧
    (∀ (len : Option ℝ) (data mix : ℝ) (alt : Bool) (d : WalkDraws),
      ((Flash.init 100 100 none none).random_walk len data mix alt d)._nodes.length = 2) := by
  refine ⟨random_walk_length, ?_, ?_, ?_, ?_⟩
  · intro w h steps
    rw [growN_length]
    simp [Flash.init]
    omega
  · simp [Flash.init, floor_hundred_half]
  · simp [Flash.init, floor_hundred_half]
  · intro len data mix alt d
    rw [random_walk_length]
    simp [Flash.init]

/-! ## C1 -/

lemma random_point_congr (f g : Flash) (hn : f._nodes = g._nodes)
    (x y sx sy : ℕ) : f.random_point x y sx sy = g.random_point x y sx sy := by
  simp [Flash.random_point, Flash.current_point, Flash.points, hn]

lemma walkLoop_spec (data mix : ℝ) (alt : Bool) (L : ℝ) (d : WalkDraws)
    (F : Flash) :
    ∀ (retry : ℕ) (f : Flash) (node : Point) (i : ℕ), 0 < retry →
      f._nodes = F._nodes → f.width = F.width → f.height = F.height →
      (Point.within_limits (walkLoop data mix alt L d retry f node i).2
        F.width F.height ∨
       (walkLoop data mix alt L d retry f node i).2 =
        F.random_point 10 10 d.fbx d.fby) := by
  intro retry
  induction retry with
  | zero => intro f node i h; omega
  | succ r ih =>
    intro f node i _ hn hw hh
    rw [walkLoop]
    split_ifs with h1 h2
    · left
      rw [hw, hh] at h1
      exact h1
    · right
      have hfields := nextNode_snd_fields f data mix alt L (d.cand i)
      exact random_point_congr _ _ (hfields.1.trans hn) 10 10 d.fbx d.fby
    · have hfields := nextNode_snd_fields f data mix alt L (d.cand i)
      exact ih (nextNode f data mix alt L (d.cand i)).2
        (nextNode f data mix alt L (d.cand i)).1 (i + 1) (by omega)
        (hfields.1.trans hn) (hfields.2.1.trans hw) (hfields.2.2.trans hh)

/-- C1 (amended): the node appended by random_walk either lies within the
canvas bounds or is exactly the post-retry safety-valve point
random_point() — a jitter of the current tip by randint(1, 10) - 5 in each
coordinate, which is not an unconstrained uniform canvas point and need not
be in bounds. -/
theorem c1_amended (f : Flash) (len : Option ℝ) (data mix : ℝ) (alt : Bool)
    (d : WalkDraws) :
    Point.within_limits ((f.random_walk len data mix alt d)._nodes.getLastD default)
      f.width f.height ∨
    (f.random_walk len data mix alt d)._nodes.getLastD default =
      f.random_point 10 10 d.fbx d.fby := by
  rw [random_walk_nodes]
  rw [List.getLastD_concat]
  have hfields := nextNode_snd_fields f data mix alt
    (effectiveLength len d.lengthDraw) (d.cand 0)
  exact walkLoop_spec data mix alt (effectiveLength len d.lengthDraw) d f 10
    (nextNode f data mix alt (effectiveLength len d.lengthDraw) (d.cand 0)).2
    (nextNode f data mix alt (effectiveLength len d.lengthDraw) (d.cand 0)).1 1
    (by omega) hfields.1 hfields.2.1 hfields.2.2

lemma ce_jitter : ceFlash.random_point 10 10 9 9 = Point.ofXY 55 105 := by
  simp only [ceFlash, Flash.random_point, Flash.current_point, Flash.points,
    randint, Point.ofXY_inj]
  norm_num

lemma ce_next (L : ℝ) (i : ℕ) :
    nextNode ceFlash 0 0 false L (ceDraws.cand i) = (Point.ofXY 55 105, ceFlash) := by
  have hc : ceDraws.cand i = ⟨9, 9, 0, 0⟩ := rfl
  have hrev : ceFlash.points.reverse = [Point.ofXY 50 100] := rfl
  rw [hc]
  unfold nextNode
  rw [hrev]
  simpa using ce_jitter

lemma ce_out : ¬ Point.within_limits (Point.ofXY 55 105) 100 100 := by
  simp only [Point.within_limits, Point.x_ofXY, Point.y_ofXY]
  norm_num

lemma ce_loop (L : ℝ) : ∀ (retry : ℕ) (i : ℕ), 0 < retry →
    walkLoop 0 0 false L ceDraws retry ceFlash (Point.ofXY 55 105) i =
      (ceFlash, Point.ofXY 55 105) := by
  intro retry
  induction retry with
  | zero => intro i h; omega
  | succ r ih =>
    intro i _
    rw [walkLoop]
    rw [if_neg (show ¬ Point.within_limits (Point.ofXY 55 105) ceFlash.width
      ceFlash.height from ce_out)]
    cases r with
    | zero =>
      simp [ce_next, ce_jitter, show ceDraws.fbx = 9 from rfl,
        show ceDraws.fby = 9 from rfl]
    | succ r' =>
      simp only [ce_next, if_neg (Nat.succ_ne_zero r')]
      exact ih (i + 1) (by omega)

/-- C1 counterexample: the default-shaped 100 x 100 flash holding only its
seed node (50, 100), walked with draws that make every jitter equal 10:
every candidate and the safety-valve fallback is (55, 105), which is
appended although it violates within_limits(100, 100). -/
theorem c1_counterexample :
    (ceFlash.random_walk none 0 0 false ceDraws)._nodes =
      [Point.ofXY 50 100, Point.ofXY 55 105] ∧
    ¬ Point.within_limits (Point.ofXY 55 105) ceFlash.width ceFlash.height := by
  constructor
  · rw [random_walk_nodes]
    rw [ce_next, ce_loop _ 10 1 (by omega)]
    rfl
  · exact ce_out

/-! ## C4 -/

lemma set_append_last (l : List Flash) (x y : Flash) :
    (l ++ [x]).set l.length y = l ++ [y] := by
  induction l with
  | nil => rfl
  | cons a t ih => simp [ih]

lemma getD_append_last (l : List Flash) (x : Flash) :
    (l ++ [x]).getD l.length default = x := by
  induction l with
  | nil => rfl
  | cons a t ih => simp [ih]

lemma sumNodes_append (l₁ l₂ : List Flash) :
    sumNodes (l₁ ++ l₂) = sumNodes l₁ + sumNodes l₂ := by
  simp [sumNodes]

lemma sumNodes_set : ∀ (l : List Flash) (i : ℕ) (x : Flash), i < l.length →
    sumNodes (l.set i x) + (l.getD i default)._nodes.length =
      sumNodes l + x._nodes.length := by
  intro l
  induction l with
  | nil => intro i x h; simp at h
  | cons a t ih =>
    intro i x h
    cases i with
    | zero => simp [sumNodes]; omega
    | succ j =>
      have hj : j < t.length := by simpa using h
      have := ih j x hj
      simp only [List.set_cons_succ, List.getD_cons_succ, sumNodes,
        List.map_cons, List.sum_cons] at *
      omega

lemma mfStep_spawn (w h : ℝ) (d : IterDraws) (s : MFState)
    (hcond : (s.flashes.getD s.active default).current_point.within_perimeter
      (s.flashes.getD s.active default).endP (h / 20)) :
    mfStep w h d s = MFState.mk
      ((s.flashes ++ [Flash.init w h
          (some ((s.flashes.getD 0 default).random_node d.nodeIdx))
          (some (random_point w (h / 2) d.ex d.ey))]).set s.flashes.length
        ((Flash.init w h
          (some ((s.flashes.getD 0 default).random_node d.nodeIdx))
          (some (random_point w (h / 2) d.ex d.ey))).random_walk none 0 0 false
          d.walk))
      s.flashes.length := by
  unfold mfStep
  simp only [if_pos hcond, updateAt, getD_append_last]

lemma mfStep_noSpawn (w h : ℝ) (d : IterDraws) (s : MFState)
    (hcond : ¬ (s.flashes.getD s.active default).current_point.within_perimeter
      (s.flashes.getD s.active default).endP (h / 20)) :
    mfStep w h d s = MFState.mk
      (s.flashes.set s.active
        ((s.flashes.getD s.active default).random_walk none 0 0 false d.walk))
      s.active := by
  unfold mfStep
  simp only [if_neg hcond, updateAt]

lemma mfIter_inv (w h : ℝ) (draws : ℕ → IterDraws) : ∀ n : ℕ,
    (mfIter w h draws n).active < (mfIter w h draws n).flashes.length ∧
    sumNodes (mfIter w h draws n).flashes =
      n + (mfIter w h draws n).flashes.length := by
  intro n
  induction n with
  | zero =>
    constructor
    · simp [mfIter]
    · simp [mfIter, sumNodes, Flash.init]
  | succ n ih =>
    obtain ⟨hact, hsum⟩ := ih
    rw [mfIter]
    set s := mfIter w h draws n with hs
    by_cases hcond : (s.flashes.getD s.active default).current_point.within_perimeter
      (s.flashes.getD s.active default).endP (h / 20)
    · -- a new flash is spawned, becomes active, and is walked
      rw [mfStep_spawn w h (draws n) s hcond]
      set nf := Flash.init w h
        (some ((s.flashes.getD 0 default).random_node (draws n).nodeIdx))
        (some (random_point w (h / 2) (draws n).ex (draws n).ey)) with hnf
      rw [set_append_last]
      constructor
      · simp
      · rw [sumNodes_append]
        have h1 : (nf.random_walk none 0 0 false (draws n).walk)._nodes.length
            = nf._nodes.length + 1 := random_walk_length _ _ _ _ _ _
        have h2 : nf._nodes.length = 1 := by simp [hnf, Flash.init]
        simp only [sumNodes, List.map_cons, List.map_nil, List.sum_cons,
          List.sum_nil, List.length_append, List.length_cons,
          List.length_nil] at *
        omega
    · -- no spawn: the active flash is walked in place
      rw [mfStep_noSpawn w h (draws n) s hcond]
      constructor
      · simpa using hact
      · have hset := sumNodes_set s.flashes s.active
          ((s.flashes.getD s.active default).random_walk none 0 0 false
            (draws n).walk) hact
        have h1 : ((s.flashes.getD s.active default).random_walk none 0 0 false
            (draws n).walk)._nodes.length
            = (s.flashes.getD s.active default)._nodes.length + 1 :=
          random_walk_length _ _ _ _ _ _
        simp only [List.length_set]
        omega

/-- C4: make_flash performs exactly nodes walk steps in total: the sum of
node counts across the returned flashes is nodes plus the number of
flashes (each flash contributes its seed, each step exactly one node);
with nodes = 0 it returns exactly one Flash holding exactly its seed node
(100, 200) on a 200 x 200 canvas. -/
theorem c4_exact_steps :
    (∀ (w h : ℝ) (n : ℕ) (v : Bool) (draws : ℕ → IterDraws),
      sumNodes (make_flash w h n v draws) = n + (make_flash w h n v draws).length) ∧
    (∀ draws : ℕ → IterDraws,
      make_flash 200 200 0 false draws = [Flash.init 200 200 none none]) ∧
    (Flash.init 200 200 none none)._nodes = [Point.ofXY 100 200] := by
  refine ⟨?_, ?_, ?_⟩
  · intro w h n v draws
    exact (mfIter_inv w h draws n).2
  · intro draws
    rfl
  · simp [Flash.init]
    norm_num

/-! ## C5 -/

/-- C5: whenever the active flash's tip lies strictly within height/20 of
that flash's own end, the make_flash iteration appends a new Flash whose
start is the drawn node of the first flash (index randint(0, len-1) into
flashes[0]'s nodes) and whose end is random_point(width, height/2) (x drawn
over the full width, y over the half height), makes it active, and applies
the walk step to this new flash. -/
theorem c5_spawn (w h : ℝ) (d : IterDraws) (s : MFState)
    (hcond : (s.flashes.getD s.active default).current_point.within_perimeter
      (s.flashes.getD s.active default).endP (h / 20)) :
    (mfStep w h d s).active = s.flashes.length ∧
    (mfStep w h d s).flashes =
      s.flashes ++ [(Flash.init w h
        (some ((s.flashes.getD 0 default).random_node d.nodeIdx))
        (some (random_point w (h / 2) d.ex d.ey))).random_walk none 0 0 false
        d.walk] ∧
    (Flash.init w h (some ((s.flashes.getD 0 default).random_node d.nodeIdx))
        (some (random_point w (h / 2) d.ex d.ey))).start =
      (s.flashes.getD 0 default)._nodes.getD
        (randint d.nodeIdx 0 (((s.flashes.getD 0 default)._nodes.length : ℤ) - 1)).toNat
        default ∧
    (Flash.init w h (some ((s.flashes.getD 0 default).random_node d.nodeIdx))
        (some (random_point w (h / 2) d.ex d.ey))).endP =
      Point.ofXY ((truncInt (d.ex * w) : ℤ) : ℝ) ((truncInt (d.ey * (h / 2)) : ℤ) : ℝ) := by
  rw [mfStep_spawn w h d s hcond]
  refine ⟨rfl, ?_, ?_, ?_⟩
  · rw [set_append_last]
  · simp [Flash.init, Flash.random_node]
  · simp [Flash.init, random_point]

/-- Witness for C5: a one-flash state whose tip coincides with its end, so
the strict perimeter test fires; the step spawns a second flash and makes
it active. -/
theorem c5_spawn_witness :
    (mfStep 100 100 iterDraws0 state0).active = 1 ∧
    0 < (100 : ℝ) / 20 :=
  ⟨(c5_spawn 100 100 iterDraws0 state0 (by
      show (Vector.mk _ _).length < (100 : ℝ) / 20
      simp only [state0, List.getD, Flash.current_point, Flash.points,
        Option.getD_some, List.getD_cons_zero, List.getLastD,
        Vector.length, Vector.ab, Point.x_ofXY, Point.y_ofXY]
      norm_num [Real.sqrt_zero])).1,
   by norm_num⟩

/-! ## C8 -/

lemma translate_from_polar (b : Point) (θ L : ℝ) :
    b.translate (Vector.from_polar b θ L).ab.1 (Vector.from_polar b θ L).ab.2 =
      Point.ofXY (b.x + L * Real.cos θ) (b.y + L * Real.sin θ) := by
  simp only [Point.translate, Vector.from_polar, Vector.ab, Point.x_ofXY,
    Point.y_ofXY, Point.ofXY_inj]
  constructor <;> ring

/-- C8: in the two-point branch of next_node (alternate=False, last two
points a then b), a drawn factor of 0 aims at the target with angle
pi/2 - phi(Vector(b, end)) + (deflect - 0.5) and the squared step length,
while a drawn factor of 1 or -1 turns by pi/2 - factor*deflect*pi/2 with
the original unsquared length, where
deflect = random()*(1 - mix) + data*mix. -/
theorem c8_candidate (f : Flash) (data mix L : ℝ) (c : CandDraw)
    (b a' : Point) (rest : List Point)
    (hrev : f.points.reverse = b :: a' :: rest) :
    (randint c.fd (-1) 1 = 0 →
      nextNode f data mix false L c =
        (Point.ofXY
          (b.x + L ^ 2 * Real.cos (Real.pi / 2 - (Vector.mk b f.endP).phi +
            ((c.r * (1 - mix) + data * mix) - 0.5)))
          (b.y + L ^ 2 * Real.sin (Real.pi / 2 - (Vector.mk b f.endP).phi +
            ((c.r * (1 - mix) + data * mix) - 0.5))), f)) ∧
    (randint c.fd (-1) 1 = 1 ∨ randint c.fd (-1) 1 = -1 →
      nextNode f data mix false L c =
        (Point.ofXY
          (b.x + L * Real.cos (Real.pi / 2 -
            ((randint c.fd (-1) 1 : ℤ) : ℝ) * (c.r * (1 - mix) + data * mix) *
            (Real.pi / 2)))
          (b.y + L * Real.sin (Real.pi / 2 -
            ((randint c.fd (-1) 1 : ℤ) : ℝ) * (c.r * (1 - mix) + data * mix) *
            (Real.pi / 2))), f)) := by
  constructor
  · intro h0
    unfold nextNode
    rw [hrev]
    simp only [drawFactor, Bool.false_eq_true, if_false, h0, if_true]
    rw [translate_from_polar]
  · intro hpm
    have hne : randint c.fd (-1) 1 ≠ 0 := by
      rcases hpm with h | h <;> rw [h] <;> norm_num
    unfold nextNode
    rw [hrev]
    simp only [drawFactor, Bool.false_eq_true, if_false, if_neg hne]
    rw [translate_from_polar]

/-- Witness for C8 on a concrete two-point flash: seed 1 makes the drawn
factor 0 (lunge branch), seed 2 makes it 1 (turn branch). -/
theorem c8_candidate_witness :
    nextNode cand2Flash 0 0 false 3 ⟨0, 0, 0, 1⟩ =
      (Point.ofXY
        ((Point.ofXY 40 90).x + 3 ^ 2 * Real.cos (Real.pi / 2 -
          (Vector.mk (Point.ofXY 40 90) cand2Flash.endP).phi +
          ((0 * (1 - 0) + 0 * 0) - 0.5)))
        ((Point.ofXY 40 90).y + 3 ^ 2 * Real.sin (Real.pi / 2 -
          (Vector.mk (Point.ofXY 40 90) cand2Flash.endP).phi +
          ((0 * (1 - 0) + 0 * 0) - 0.5))), cand2Flash) ∧
    nextNode cand2Flash 0 0 false 3 ⟨0, 0, 0, 2⟩ =
      (Point.ofXY
        ((Point.ofXY 40 90).x + 3 * Real.cos (Real.pi / 2 -
          ((randint 2 (-1) 1 : ℤ) : ℝ) * (0 * (1 - 0) + 0 * 0) * (Real.pi / 2)))
        ((Point.ofXY 40 90).y + 3 * Real.sin (Real.pi / 2 -
          ((randint 2 (-1) 1 : ℤ) : ℝ) * (0 * (1 - 0) + 0 * 0) * (Real.pi / 2))),
        cand2Flash) :=
  ⟨(c8_candidate cand2Flash 0 0 3 ⟨0, 0, 0, 1⟩ (Point.ofXY 40 90)
      (Point.ofXY 50 100) [] rfl).1 (by decide),
   (c8_candidate cand2Flash 0 0 3 ⟨0, 0, 0, 2⟩ (Point.ofXY 40 90)
      (Point.ofXY 50 100) [] rfl).2 (Or.inl (by decide))⟩

end Vizzy
